import Mathlib

/-!
Verification development for the stock-check service (`index.js` variant with
smart size/color heuristics, the file with `buildOtherCombos`,
`colorFromUrlSmart`, `isLikelySizeLabel`, a bounded FIFO queue and a single
browser session).  The JavaScript source is shallowly embedded: pure helpers
become Lean functions on `List Char` / `String`, JS numbers that may be `NaN`
become `JNum`, and the effectful scraping loop becomes explicit state passing
over an environment (`Env`) that supplies clock readings, button states, the
page title and the discovered variations.
-/

set_option maxRecDepth 10000

namespace StockBot

/-! ## JS numbers: the request fields `max_combos` / `max_ms` go through
`Number(...)`, which can yield `NaN`.  Every comparison with `NaN` is false
and any arithmetic with `NaN` is `NaN`. -/

inductive JNum where
  | nan
  | num (v : Int)
deriving DecidableEq, Repr

/-- JS `a + b` (used for `deadline = started + max_ms`). -/
def jadd : JNum → JNum → JNum
  | .num a, .num b => .num (a + b)
  | _, _ => .nan

/-- JS `a >= b`: false whenever either side is `NaN`. -/
def jge : JNum → JNum → Bool
  | .num a, .num b => decide (b ≤ a)
  | _, _ => false

/-- JS `a > b`: false whenever either side is `NaN`. -/
def jgt : JNum → JNum → Bool
  | .num a, .num b => decide (b < a)
  | _, _ => false

/-- A request body field as seen by `Number(req.body?.x ?? DEFAULT)`:
either missing (default applies), a numeric value, or a value whose
`Number(...)` conversion yields `NaN`. -/
inductive BodyField where
  | missing
  | numVal (n : Int)
  | nanVal
deriving DecidableEq

/-- `Number(req.body?.x ?? DEFAULT)` (lines 654-655 of the source). -/
def parseBody (f : BodyField) (dflt : Int) : JNum :=
  match f with
  | .missing => .num dflt
  | .numVal n => .num n
  | .nanVal => .nan

/-! ## JS string helpers -/

/-- JS `||` on strings: the empty string is falsy. -/
def jsOr (a b : String) : String := if a = "" then b else a

/-- JS whitespace (`\s`), restricted to the ASCII range used by the service. -/
def isJsWs (c : Char) : Bool :=
  c = ' ' || c = '\t' || c = '\n' || c = '\r' || c = '\x0b' || c = '\x0c'

/-- ASCII lowercasing of one character (JS `toLowerCase` on the service's
ASCII inputs). -/
def lowerCh (c : Char) : Char :=
  if 'A' ≤ c ∧ c ≤ 'Z' then Char.ofNat (c.toNat + 32) else c

def jsToLowerL (s : List Char) : List Char := s.map lowerCh

def jsToLower (s : String) : String := String.mk (jsToLowerL s.toList)

/-- JS `String.prototype.trim` on a char list. -/
def jsTrimL (s : List Char) : List Char :=
  ((s.dropWhile isJsWs).reverse.dropWhile isJsWs).reverse

def jsTrim (s : String) : String := String.mk (jsTrimL s.toList)

/-- Collapse runs of spaces to a single space (after whitespace has been
mapped to spaces); implements the `replace(/\s+/g, " ")` step. -/
def squeeze : List Char → List Char
  | [] => []
  | [c] => [c]
  | a :: b :: r =>
    if a = ' ' ∧ b = ' ' then squeeze (b :: r) else a :: squeeze (b :: r)

/-- `normalizeText` (lines 48-52): `String(s).replace(/\s+/g, " ").trim()`. -/
def normalizeTextL (s : List Char) : List Char :=
  jsTrimL (squeeze (s.map (fun c => if isJsWs c then ' ' else c)))

def normalizeText (s : String) : String := String.mk (normalizeTextL s.toList)

/-- JS `String.prototype.includes` (substring test). -/
def inclGo (pat : List Char) : List Char → Bool
  | [] => pat.isEmpty
  | s@(_ :: rest) => pat.isPrefixOf s || inclGo pat rest

def jsIncludes (s sub : String) : Bool := inclGo sub.toList s.toList

/-- JS `String.prototype.split` with a non-empty string separator,
via fuel (the fuel is always sufficient at `s.length + 1`). -/
def splitFuel (sep : List Char) : Nat → List Char → List Char → List (List Char)
  | 0, s, cur => [cur.reverse ++ s]
  | fuel + 1, s, cur =>
    if sep ≠ [] ∧ sep.isPrefixOf s then
      cur.reverse :: splitFuel sep fuel (s.drop sep.length) []
    else
      match s with
      | [] => [cur.reverse]
      | c :: r => splitFuel sep fuel r (c :: cur)

def jsSplitL (s sep : List Char) : List (List Char) :=
  splitFuel sep (s.length + 1) s []

def jsSplit (s sep : String) : List String :=
  (jsSplitL s.toList sep.toList).map String.mk

/-- `/^\d+$/` resp. `/^\d{1,3}$/`-style tests. -/
def isAllDigits (s : String) : Bool :=
  s.toList ≠ [] && s.toList.all Char.isDigit

/-! ## Regex word boundaries (`\b`), as used by `isLikelySizeLabel`.
JS `\w` is `[A-Za-z0-9_]`; `\b` holds at a position where exactly one of the
two surrounding characters is a word character (string ends count as
non-word). -/

def isW (c : Char) : Bool :=
  ('a' ≤ c && c ≤ 'z') || ('A' ≤ c && c ≤ 'Z') || ('0' ≤ c && c ≤ '9') || c = '_'

def optW : Option Char → Bool
  | none => false
  | some c => isW c

/-- `\b` between an (optional) left character and an (optional) right one. -/
def bnd (a b : Option Char) : Bool := optW a != optW b

/-- Does the literal pattern `pat` occur at the head of `s`, with `\b` before
it (w.r.t. the previous character `prev`) and `\b` after it? -/
def foundAt (pat : List Char) (prev : Option Char) (s : List Char) : Bool :=
  pat.isPrefixOf s && bnd prev pat.head? && bnd pat.getLast? (s.drop pat.length).head?

/-- Does `\b pat \b` match anywhere in `s` (scanning left to right)? -/
def hasBounded (pat : List Char) : Option Char → List Char → Bool
  | _, [] => false
  | prev, s@(c :: rest) => foundAt pat prev s || hasBounded pat (some c) rest

def hasBoundedStr (pat : String) (s : List Char) : Bool :=
  hasBounded pat.toList none s

/-- The `\s*\d+\b` tail of the `/\bt\s*\d+\b/` test, applied to the characters
following a matched `t`. -/
def tTail (s : List Char) : Bool :=
  let r := s.dropWhile isJsWs
  match r with
  | d :: _ => d.isDigit && !(optW ((r.dropWhile Char.isDigit).head?))
  | [] => false

/-- `/\bt\s*\d+\b/` (line 129): a word-bounded `t` followed by optional
whitespace and digits ending at a word boundary. -/
def hasTNum : Option Char → List Char → Bool
  | _, [] => false
  | prev, c :: rest => (c = 't' && !(optW prev) && tTail rest) || hasTNum (some c) rest

/-! ## Size-label heuristic (`isLikelySizeLabel`, lines 125-143) -/

def sizeWords : List String := ["xxs", "xs", "s", "m", "l", "xl", "xxl", "xxxl"]

def sizeNums : List String :=
  ["34", "35", "36", "37", "38", "39", "40", "41", "42", "43", "44", "45",
   "46", "47", "48", "49", "50"]

def uniqueWords : List String := ["único", "unico", "unique", "one size", "talle unico"]

/-- `isLikelySizeLabel` (lines 125-143): lowercase and trim, then test the
four regex families in the source (`t`+digits, size abbreviations,
1-3 digit strings, common numeric sizes, "one size" words). -/
def isLikelySizeLabel (label : String) : Bool :=
  let s := jsTrimL (jsToLowerL label.toList)
  hasTNum none s
  || sizeWords.any (fun w => hasBoundedStr w s)
  || (decide (s ≠ []) && decide (s.length ≤ 3) && s.all Char.isDigit)
  || sizeNums.any (fun w => hasBoundedStr w s)
  || uniqueWords.any (fun w => hasBoundedStr w s)

/-! ## Data model -/

structure Opt where
  value : String
  label : String
  disabled : Bool
deriving DecidableEq, Repr

structure Variation where
  name : String
  options : List Opt
deriving DecidableEq, Repr

structure Combo where
  talle : String
  color : String
  available : Bool
deriving DecidableEq, Repr

/-- One entry of an assignment built by `buildOtherCombos`
(`{ varName: v.name, opt }` in the source). -/
structure APair where
  varName : String
  opt : Opt
deriving DecidableEq, Repr

abbrev Assn := List APair

/-- `talleScoreForGroup` (lines 145-155): fraction of options whose
`label || value` looks like a size.  The quotient `hits / opts.length` is
kept as the exact pair `(hits, opts.length)` (zero options → `0`, encoded
`(0, 1)`); comparisons of the JS float quotients agree with exact
cross-multiplied comparisons for all realistic option-list sizes. -/
def talleScoreForGroup (g : Variation) : Nat × Nat :=
  if g.options.length = 0 then (0, 1)
  else (g.options.countP (fun o => isLikelySizeLabel (jsOr o.label o.value)), g.options.length)

/-- `a < b` on score fractions. -/
def scoreLt (a b : Nat × Nat) : Bool := decide (a.1 * b.2 < b.1 * a.2)

/-- Insert an earlier element into the (descending, stable) sort of the later
ones: it goes before every element whose score is not strictly greater. -/
def insDesc (a : Nat × Variation × (Nat × Nat)) :
    List (Nat × Variation × (Nat × Nat)) → List (Nat × Variation × (Nat × Nat))
  | [] => [a]
  | b :: r => if scoreLt a.2.2 b.2.2 then b :: insDesc a r else a :: b :: r

/-- Stable descending sort by score — the result of JS
`scored.sort((a, b) => b.score - a.score)` (`Array.prototype.sort` is
stable). -/
def sortByScoreDesc : List (Nat × Variation × (Nat × Nat)) →
    List (Nat × Variation × (Nat × Nat))
  | [] => []
  | a :: r => insDesc a (sortByScoreDesc r)

/-- Lines 516-530: score each group, sort descending by score (stable), take
the best; fall back to the first group when the best score is below `0.2`
(`score < 1/5` ⟺ `5 * hits < length`).  `v0` is the head of the (non-empty)
`vars` list, so `vars = v0 :: _`; the fallback `{ idx: 0, v: vars[0] }` is
`(0, v0)`. -/
def pickTalle (v0 : Variation) (vars : List Variation) : Nat × Variation :=
  let scored := vars.enum.map (fun iv => (iv.1, iv.2, talleScoreForGroup iv.2))
  let sorted := sortByScoreDesc scored
  match sorted.head? with
  | some (i, v, s) => if decide (5 * s.1 < s.2) then (0, v0) else (i, v)
  | none => (0, v0)

/-! ## URL-slug and title fallback labels (lines 68-119, 314-330) -/

/-- `productSlugFromUrl` (lines 68-71). -/
def productSlugFromUrl (product_url : String) : String :=
  let after :=
    match jsSplit product_url "/productos/" with
    | _ :: x :: _ => x
    | _ => ""
  let seg :=
    match jsSplit after "/" with
    | x :: _ => x
    | [] => ""
  jsTrim seg

/-- `looksLikeCodeToken` (lines 73-82): a 4-6 character `[a-z0-9]` token with
fewer than two vowels. -/
def looksLikeCodeToken (tok : String) : Bool :=
  let t := jsTrimL (jsToLowerL tok.toList)
  if !(decide (4 ≤ t.length) && decide (t.length ≤ 6) &&
       t.all (fun c => ('a' ≤ c && c ≤ 'z') || ('0' ≤ c && c ≤ '9'))) then
    false
  else
    let vowels := (t.filter (fun c => c = 'a' || c = 'e' || c = 'i' || c = 'o' || c = 'u')).length
    if 2 ≤ vowels then false else true

/-- `cleanColorText` (lines 84-86): underscores and hyphens to spaces, then
`normalizeText`. -/
def cleanColorText (s : String) : String :=
  normalizeText (String.mk (s.toList.map (fun c => if c = '_' || c = '-' then ' ' else c)))

/-- `colorFromUrlSmart` (lines 88-119). -/
def colorFromUrlSmart (product_url : String) : String :=
  let slug := productSlugFromUrl product_url
  if slug = "" then ""
  else
    let parts := ((jsSplit slug "-").filter (fun p => p != "")).map jsTrim
    if parts.isEmpty then ""
    else
      let i0 : Nat :=
        if jsToLower (parts.headD "") = "art" || jsToLower (parts.headD "") = "art." then 1 else 0
      let i1 : Nat :=
        if decide (i0 < parts.length) && isAllDigits (parts.getD i0 "") then i0 + 1 else i0
      let i2 : Nat :=
        if i1 = 0 then
          match parts.findIdx? (fun p => isAllDigits p) with
          | some k => k + 1
          | none => i1
        else i1
      let colorParts := parts.drop i2
      if colorParts.isEmpty then ""
      else
        let colorParts2 :=
          if looksLikeCodeToken (colorParts.getLastD "") then colorParts.dropLast
          else colorParts
        if colorParts2.isEmpty then ""
        else cleanColorText (String.intercalate " " colorParts2)

/-- The `/art\.?\s*\d+\s*(.*)$/i` match attempt at the head of `s`:
`art` (case-insensitive), optional dot, whitespace, at least one digit,
whitespace, and the captured remainder. -/
def tryArtAt (s : List Char) : Option (List Char) :=
  match s with
  | a :: r :: t :: rest =>
    if lowerCh a = 'a' && lowerCh r = 'r' && lowerCh t = 't' then
      let rest1 := match rest with
        | '.' :: rr => rr
        | _ => rest
      let rest2 := rest1.dropWhile isJsWs
      match rest2 with
      | d :: _ =>
        if d.isDigit then some ((rest2.dropWhile Char.isDigit).dropWhile isJsWs)
        else none
      | [] => none
    else none
  | _ => none

/-- Leftmost match of `/art\.?\s*\d+\s*(.*)$/i`, returning the capture. -/
def findArt : List Char → Option (List Char)
  | [] => none
  | s@(_ :: rest) =>
    match tryArtAt s with
    | some cap => some cap
    | none => findArt rest

/-- `colorFromTitleSmart` (lines 314-330, nested in `scrapeProduct`). -/
def colorFromTitleSmart (title : String) : String :=
  let t := normalizeText title
  if t = "" then ""
  else
    let partsDash := ((jsSplit t " - ").map jsTrim).filter (fun x => x != "")
    if 2 ≤ partsDash.length then
      cleanColorText (String.intercalate " - " (partsDash.drop 1))
    else
      match findArt t.toList with
      | some cap =>
        if cap ≠ [] then cleanColorText (String.mk cap) else ""
      | none => ""

/-! ## Availability reading (`readAvailable`, lines 427-453)

The DOM query is abstracted to an optional button state: `none` models a page
where none of the three buy-button selectors matches; `Btn.disabled` models
`(btn instanceof HTMLInputElement || btn instanceof HTMLButtonElement) &&
btn.disabled === true`, `Btn.className` the `class` attribute and `Btn.text`
the `value`/`textContent` string the source reads. -/

structure Btn where
  disabled : Bool
  className : String
  text : String
deriving DecidableEq, Repr

/-- `readAvailable` (lines 427-453): `null` when the button is absent,
otherwise `!(disabled || class has "nostock" || text has "sin stock" or
"agotado")`. -/
def readAvailable (btn : Option Btn) : Option Bool :=
  match btn with
  | none => none
  | some b =>
    let cls := jsToLower b.className
    let text := jsToLower b.text
    let noStock := b.disabled || jsIncludes cls "nostock" ||
      jsIncludes text "sin stock" || jsIncludes text "agotado"
    some (!noStock)

/-- The `available === true` coercion applied at every combo push
(lines 463, 493, 572, 596). -/
def availOfRead (r : Option Bool) : Bool := r == some true

/-! ## Variation filtering (lines 481-486) -/

/-- `vars`: drop disabled options, then drop dimensions with no options left. -/
def filterVars (variations : List Variation) : List Variation :=
  (variations.map (fun v => { v with options := v.options.filter (fun o => !o.disabled) })).filter
    (fun v => decide (0 < v.options.length))

/-! ## Combination builder (`buildOtherCombos`, lines 540-557) -/

/-- The innermost `for (const opt of v.options)` loop: extend one partial
assignment `stem` with every option, pushing onto `next` and breaking as soon
as `next.length >= max_combos`. -/
def pushOpts (mc : JNum) (vn : String) (stem : Assn) : List Opt → List Assn → List Assn
  | [], next => next
  | o :: os, next =>
    let next' := next ++ [stem ++ [⟨vn, o⟩]]
    if jge (.num (next'.length : Int)) mc then next'
    else pushOpts mc vn stem os next'

/-- The `for (const partial of acc)` loop, with its own cap break. -/
def extendAll (mc : JNum) (vn : String) (opts : List Opt) : List Assn → List Assn → List Assn
  | [], next => next
  | p :: ps, next =>
    let next' := pushOpts mc vn p opts next
    if jge (.num (next'.length : Int)) mc then next'
    else extendAll mc vn opts ps next'

/-- The `for (const v of otherVars)` loop, with the cap break on `acc`. -/
def buildLoop (mc : JNum) : List Variation → List Assn → List Assn
  | [], acc => acc
  | v :: vs, acc =>
    let next := extendAll mc v.name v.options acc []
    if jge (.num (next.length : Int)) mc then next
    else buildLoop mc vs next

/-- `buildOtherCombos` (lines 540-557). -/
def buildOtherCombos (mc : JNum) (otherVars : List Variation) : List Assn :=
  if otherVars.isEmpty then [[]]
  else buildLoop mc otherVars [[]]

/-! ## The scrape loop (`scrapeProduct`, lines 283-618)

Effects are made explicit: `Env.times i` is the value of the `i`-th `nowMs()`
call, `Env.avails i` the button state seen by the `i`-th `readAvailable`,
`Env.pageTitle` the `h1` text and `Env.variations` the discovery result.
`SState` is the scraper's mutable state: next clock index `ti`, next
availability index `ai`, the `combos` array and the page-driving event log
(`setVariation` calls and availability reads). -/

inductive PEv where
  | set (name value : String)
  | read (i : Nat)
deriving DecidableEq, Repr

structure SState where
  ti : Nat
  ai : Nat
  combos : List Combo
  evs : List PEv
deriving DecidableEq, Repr

structure Env where
  times : Nat → Int
  avails : Nat → Option Btn
  pageTitle : String
  variations : List Variation

structure Params where
  product_url : String
  max_combos : JNum
  max_ms : JNum
deriving DecidableEq, Repr

structure ScrapeResult where
  product_url : String
  combos : List Combo
  combosCount : Nat
  tallesCount : Nat
  coloresCount : Nat
  limited : Bool
  max_combos : JNum
  max_ms : JNum
  elapsed_ms : Int
deriving DecidableEq, Repr

/-- The two identical zero-dimension early returns (lines 457-478 and
488-508): one availability read, one synthetic combo, `limited: false`.
The returned `SState` is the state at the end of iteration (the trailing
`nowMs()` for `elapsed_ms` reads index 1). -/
def emptyVarsResult (env : Env) (p : Params) (started : Int) (fb : String) :
    ScrapeResult × SState :=
  let avail := availOfRead (readAvailable (env.avails 0))
  let combo : Combo := { talle := "(sin talle)", color := jsOr fb "(sin color)", available := avail }
  ({ product_url := p.product_url, combos := [combo], combosCount := 1,
     tallesCount := 0, coloresCount := 0, limited := false,
     max_combos := p.max_combos, max_ms := p.max_ms,
     elapsed_ms := env.times 1 - started },
   { ti := 1, ai := 1, combos := [combo], evs := [.read 0] })

/-- Inner loop over `otherCombos` for a fixed primary option (lines 578-600):
deadline check, apply every pair of the assignment, read availability, push
one combo, break at the cap. -/
def runInner (env : Env) (mc deadline : JNum) (fb tLab : String) :
    List Assn → SState → SState
  | [], st => st
  | parts :: rest, st =>
    let now := env.times st.ti
    let st1 : SState := { st with ti := st.ti + 1 }
    if jgt (.num now) deadline then st1
    else
      let st2 : SState :=
        { st1 with evs := st1.evs ++ parts.map (fun pr => PEv.set pr.varName pr.opt.value) }
      let avail := availOfRead (readAvailable (env.avails st2.ai))
      let st3 : SState := { st2 with ai := st2.ai + 1, evs := st2.evs ++ [PEv.read st2.ai] }
      let colorLabel :=
        String.intercalate " | "
          ((parts.map (fun pr => jsOr pr.opt.label pr.opt.value)).filter (fun x => x != ""))
      let c : Combo :=
        { talle := tLab, color := jsOr colorLabel (jsOr fb "(sin color)"), available := avail }
      let st4 : SState := { st3 with combos := st3.combos ++ [c] }
      if jge (.num (st4.combos.length : Int)) mc then st4
      else runInner env mc deadline fb tLab rest st4

/-- Outer loop over the primary dimension's options (lines 561-603):
deadline check, apply the primary option, then either a single read (no
secondary dimensions) or the inner loop over `otherCombos`; cap breaks after
each push and after the inner loop. -/
def runTalles (env : Env) (mc deadline : JNum) (fb talleName : String)
    (otherVars : List Variation) (otherCombos : List Assn) :
    List Opt → SState → SState
  | [], st => st
  | t :: ts, st =>
    let now := env.times st.ti
    let st1 : SState := { st with ti := st.ti + 1 }
    if jgt (.num now) deadline then st1
    else
      let st2 : SState := { st1 with evs := st1.evs ++ [PEv.set talleName t.value] }
      if otherVars.isEmpty then
        let avail := availOfRead (readAvailable (env.avails st2.ai))
        let st3 : SState := { st2 with ai := st2.ai + 1, evs := st2.evs ++ [PEv.read st2.ai] }
        let c : Combo :=
          { talle := jsOr t.label t.value, color := jsOr fb "(sin color)", available := avail }
        let st4 : SState := { st3 with combos := st3.combos ++ [c] }
        if jge (.num (st4.combos.length : Int)) mc then st4
        else runTalles env mc deadline fb talleName otherVars otherCombos ts st4
      else
        let st3 := runInner env mc deadline fb (jsOr t.label t.value) otherCombos st2
        if jge (.num (st3.combos.length : Int)) mc then st3
        else runTalles env mc deadline fb talleName otherVars otherCombos ts st3

/-- `scrapeProduct` (lines 283-618) on the success path, returning the
payload together with the `SState` at the end of iteration (before the two
trailing `nowMs()` calls).  `started` is the `nowMs()` at line 284 (clock
index 0); `limited` (line 605) short-circuits, so its clock read at index
`stF.ti` only happens when the count cap was not reached. -/
def scrapeGo (env : Env) (p : Params) : ScrapeResult × SState :=
  let started := env.times 0
  let deadline := jadd (.num started) p.max_ms
  let fb := jsOr (colorFromTitleSmart env.pageTitle) (colorFromUrlSmart p.product_url)
  if env.variations.isEmpty then emptyVarsResult env p started fb
  else
    match filterVars env.variations with
    | [] => emptyVarsResult env p started fb
    | v0 :: vrest =>
      let vars := v0 :: vrest
      let talleVar := (pickTalle v0 vars).2
      let otherVars := vars.filter (fun x => x.name != talleVar.name)
      let talles := talleVar.options
      let coloresCountCompat :=
        match otherVars.head? with
        | some v => v.options.length
        | none => 0
      let otherCombos := buildOtherCombos p.max_combos otherVars
      let st0 : SState := { ti := 1, ai := 0, combos := [], evs := [] }
      let stF := runTalles env p.max_combos deadline fb talleVar.name otherVars otherCombos talles st0
      let capped := jge (.num (stF.combos.length : Int)) p.max_combos
      let limited := capped || jgt (.num (env.times stF.ti)) deadline
      let tiEl := if capped then stF.ti else stF.ti + 1
      ({ product_url := p.product_url, combos := stF.combos,
         combosCount := stF.combos.length, tallesCount := talles.length,
         coloresCount := coloresCountCompat, limited := limited,
         max_combos := p.max_combos, max_ms := p.max_ms,
         elapsed_ms := env.times tiEl - started }, stF)

/-- The payload a successful job resolves with. -/
def scrape (env : Env) (p : Params) : ScrapeResult := (scrapeGo env p).1

/-! ## Fatal error signatures (lines 29-37, 54-57) -/

def FATAL_PATTERNS : List String :=
  ["EAGAIN", "spawn ", "browserType.launch", "Failed to launch",
   "Executable doesn\x27t exist", "Target closed", "Browser has been closed"]

/-- `isFatalPlaywrightError` (lines 54-57): substring test against the fixed
pattern list. -/
def isFatalPlaywrightError (msg : String) : Bool :=
  FATAL_PATTERNS.any (fun pat => jsIncludes msg pat)

/-! ## Queue admission (`enqueue`, lines 239-251)

`queue` holds the pending items; the item the worker is currently awaiting
has already been `shift()`ed off and is tracked separately as `inFlight`.
`maxQueue` is the configured `MAX_QUEUE` (env default 50). -/

structure QueueView where
  pendingIds : List Nat
  inFlight : Option Nat
deriving DecidableEq, Repr

def inFlightCount (st : QueueView) : Nat :=
  match st.inFlight with
  | some _ => 1
  | none => 0

structure QueueFullErr where
  status : Nat
  retry_after_ms : Nat
deriving DecidableEq, Repr

/-- `enqueue` (lines 239-251): throw `queue_full` (status 429,
`retry_after_ms` 30000) when `queue.length >= MAX_QUEUE`, otherwise push the
job at the tail; the throw happens before the push, so a rejected submission
leaves the queue untouched. -/
def enqueue (maxQueue : Nat) (st : QueueView) (id : Nat) : Except QueueFullErr QueueView :=
  if maxQueue ≤ st.pendingIds.length then .error { status := 429, retry_after_ms := 30000 }
  else .ok { st with pendingIds := st.pendingIds ++ [id] }

/-! ## Worker drain loop (`runWorker`, lines 253-276) and session policy

A job is abstracted by its outcome: success (which increments `jobsDone`,
line 607) or failure with a message (the `catch` at lines 619-626 restarts
the browser when the message matches a fatal signature, then rethrows).
`stepJob` is one iteration of the `while` loop: preventive-restart check,
dequeue, drive, resolve/reject. -/

inductive Outcome where
  | success
  | failure (msg : String)
deriving DecidableEq, Repr

inductive Ev where
  | restart (reason : String)
  | start (id : Nat)
  | jobDone (id : Nat) (err : Option String)
deriving DecidableEq, Repr

def isRestartEv : Ev → Bool
  | .restart _ => true
  | _ => false

def startOf : Ev → Option Nat
  | .start i => some i
  | _ => none

def doneOf : Ev → Option (Nat × Option String)
  | .jobDone i e => some (i, e)
  | _ => none

/-- `none` for a resolved promise, `some msg` for a rejection with `msg`. -/
def resOf : Outcome → Option String
  | .success => none
  | .failure m => some m

structure SysSt where
  jobsDone : Nat
  browserUp : Bool
deriving DecidableEq, Repr

/-- One iteration of the worker loop for job `id` (lines 258-271):
the preventive restart (lines 259-261) fires when the browser is up,
`jobsDone > 0` and `jobsDone % K == 0`; then the job runs (`ensureBrowser`
leaves the browser up), a fatal failure restarts the browser before the error
propagates (lines 622-624), and the item's promise is resolved or rejected
(lines 266-271). -/
def stepJob (K : Nat) (id : Nat) (o : Outcome) (s : SysSt) : SysSt × List Ev :=
  let pre : SysSt × List Ev :=
    if s.browserUp && decide (0 < s.jobsDone) && decide (s.jobsDone % K = 0) then
      ({ s with browserUp := true }, [Ev.restart "preventive_restart"])
    else (s, [])
  let s1 := pre.1
  match o with
  | .success =>
    ({ jobsDone := s1.jobsDone + 1, browserUp := true },
     pre.2 ++ [Ev.start id, Ev.jobDone id none])
  | .failure msg =>
    if isFatalPlaywrightError msg then
      ({ s1 with browserUp := true },
       pre.2 ++ [Ev.start id, Ev.restart msg, Ev.jobDone id (some msg)])
    else
      ({ s1 with browserUp := true },
       pre.2 ++ [Ev.start id, Ev.jobDone id (some msg)])

/-- The `while (queue.length)` drain (lines 258-272), processing the pending
ids in arrival order; `oc` gives each job's outcome. -/
def drainList (K : Nat) (oc : Nat → Outcome) : List Nat → SysSt → SysSt × List Ev
  | [], s => (s, [])
  | j :: rest, s =>
    let one := stepJob K j (oc j) s
    let more := drainList K oc rest one.1
    (more.1, one.2 ++ more.2)

structure WSt where
  pending : List Nat
  workerRunning : Bool
  sys : SysSt
deriving DecidableEq, Repr

/-- `runWorker` (lines 253-276): a second invocation while `workerRunning`
returns immediately (line 254); otherwise the single worker drains the whole
queue and clears the flag in `finally`. -/
def runWorkerModel (K : Nat) (oc : Nat → Outcome) (st : WSt) : WSt × List Ev :=
  if st.workerRunning then (st, [])
  else
    let d := drainList K oc st.pending st.sys
    ({ pending := [], workerRunning := false, sys := d.1 }, d.2)

/-- Job-serial traces: an optional block of restarts, one `start`, an optional
block of restarts, then the matching `jobDone`, and so on — i.e. each
dequeued job runs to completion before the next is dequeued. -/
inductive JobSerial : List Ev → Prop where
  | nil : JobSerial []
  | job (j : Nat) (e : Option String) (pre mid rest : List Ev)
      (hpre : ∀ x ∈ pre, isRestartEv x = true)
      (hmid : ∀ x ∈ mid, isRestartEv x = true)
      (h : JobSerial rest) :
      JobSerial (pre ++ Ev.start j :: (mid ++ Ev.jobDone j e :: rest))

/-! ## Derived notions used by the statements -/

/-- Product of the option-list sizes of a dimension list (the size of the
full Cartesian product). -/
def prodOpts (vs : List Variation) : Nat := (vs.map (fun v => v.options.length)).prod

/-- The main branch of `scrapeGo` for a non-empty filtered dimension list
`v0 :: vrest` (verbatim copy of the `| v0 :: vrest =>` arm). -/
def mainResult (env : Env) (p : Params) (v0 : Variation) (vrest : List Variation) :
    ScrapeResult × SState :=
  let started := env.times 0
  let deadline := jadd (.num started) p.max_ms
  let fb := jsOr (colorFromTitleSmart env.pageTitle) (colorFromUrlSmart p.product_url)
  let vars := v0 :: vrest
  let talleVar := (pickTalle v0 vars).2
  let otherVars := vars.filter (fun x => x.name != talleVar.name)
  let talles := talleVar.options
  let coloresCountCompat :=
    match otherVars.head? with
    | some v => v.options.length
    | none => 0
  let otherCombos := buildOtherCombos p.max_combos otherVars
  let st0 : SState := { ti := 1, ai := 0, combos := [], evs := [] }
  let stF := runTalles env p.max_combos deadline fb talleVar.name otherVars otherCombos talles st0
  let capped := jge (.num (stF.combos.length : Int)) p.max_combos
  let limited := capped || jgt (.num (env.times stF.ti)) deadline
  let tiEl := if capped then stF.ti else stF.ti + 1
  ({ product_url := p.product_url, combos := stF.combos,
     combosCount := stF.combos.length, tallesCount := talles.length,
     coloresCount := coloresCountCompat, limited := limited,
     max_combos := p.max_combos, max_ms := p.max_ms,
     elapsed_ms := env.times tiEl - started }, stF)

/-! ## Concrete instances used by counterexamples and witnesses -/

/-- The size dimension of the classifier example: labels S, M, L, XL. -/
def dimA : Variation :=
  ⟨"variation[0]", [⟨"s", "S", false⟩, ⟨"m", "M", false⟩, ⟨"l", "L", false⟩, ⟨"xl", "XL", false⟩]⟩

/-- The color dimension of the classifier example: labels Rojo, Azul. -/
def dimB : Variation :=
  ⟨"variation[1]", [⟨"rojo", "Rojo", false⟩, ⟨"azul", "Azul", false⟩]⟩

/-- Outcome oracle for the worker-loop witness: job 2 throws. -/
def oc0 : Nat → Outcome := fun j => if j = 2 then .failure "boom" else .success

/-- A job with zero discovered dimensions. -/
def envC1 : Env :=
  { times := fun _ => 0, avails := fun _ => none, pageTitle := "", variations := [] }

def pC1 : Params := { product_url := "u", max_combos := .num 1, max_ms := .num 1000 }

/-- A one-dimension job for the budget witness. -/
def envW1 : Env :=
  { times := fun _ => 0, avails := fun _ => none, pageTitle := "",
    variations := [⟨"variation[0]", [⟨"s", "S", false⟩]⟩] }

def pW1 : Params := { product_url := "u", max_combos := .num 5, max_ms := .num 100 }

/-- A job whose only discovered dimension is entirely disabled, driving the
second zero-dimension early return. -/
def envW6 : Env :=
  { times := fun _ => 5, avails := fun _ => some ⟨false, "product-buy-btn", "Comprar"⟩,
    pageTitle := "", variations := [⟨"variation[0]", [⟨"x", "X", true⟩]⟩] }

def pW6 : Params :=
  { product_url := "https://t.example/productos/art-1-azul/", max_combos := .num 200,
    max_ms := .num 20000 }

/-- A one-dimension job whose buy button is absent on every read. -/
def envW9 : Env :=
  { times := fun _ => 0, avails := fun _ => none, pageTitle := "",
    variations := [⟨"variation[0]", [⟨"t1", "T1", false⟩]⟩] }

def pW9 : Params := { product_url := "u", max_combos := .num 10, max_ms := .num 20000 }

/-- The single combo `envW9` produces: button absent, so unavailable. -/
def cW9 : Combo := ⟨"T1", "(sin color)", false⟩

/-- A request whose `max_combos` does not parse (`Number` gives `NaN`) while
`max_ms` is numeric, on a page where the clock jumps past the deadline. -/
def envC10 : Env :=
  { times := fun i => if i = 0 then 0 else 100, avails := fun _ => none, pageTitle := "",
    variations := [⟨"variation[0]", [⟨"1", "t1", false⟩]⟩] }

def pC10 : Params :=
  { product_url := "u", max_combos := parseBody .nanVal 200,
    max_ms := parseBody (.numVal 10) 20000 }

/-- A two-dimension job with both budget fields unparseable. -/
def envW10 : Env :=
  { times := fun _ => 0, avails := fun _ => none, pageTitle := "",
    variations := [⟨"variation[0]", [⟨"s", "S", false⟩]⟩,
                   ⟨"variation[1]", [⟨"r", "Rojo", false⟩, ⟨"a", "Azul", false⟩]⟩] }

def pW10 : Params :=
  { product_url := "u", max_combos := parseBody .nanVal 200, max_ms := parseBody .nanVal 20000 }

/-- Secondary dimensions for the combination-builder witness: 2 × 2 options. -/
def varsW5 : List Variation :=
  [⟨"variation[1]", [⟨"r", "Rojo", false⟩, ⟨"a", "Azul", false⟩]⟩,
   ⟨"variation[2]", [⟨"c", "Cuero", false⟩, ⟨"t", "Tela", false⟩]⟩]

/-! ## Lemmas about the combination builder -/

theorem jge_num_num (a b : Int) : jge (.num a) (.num b) = decide (b ≤ a) := rfl

theorem jgt_num_num (a b : Int) : jgt (.num a) (.num b) = decide (b < a) := rfl

theorem jge_nan_right (a : JNum) : jge a .nan = false := by cases a <;> rfl

theorem jgt_nan_right (a : JNum) : jgt a .nan = false := by cases a <;> rfl

theorem pushOpts_length_num (m : Nat) (vn : String) (stem : Assn) :
    ∀ (opts : List Opt) (next : List Assn), next.length < m →
      (pushOpts (.num (m : Int)) vn stem opts next).length = min (next.length + opts.length) m
  | [], next, h => by
    simp only [pushOpts, List.length_nil]
    omega
  | o :: os, next, h => by
    rw [pushOpts]
    have hlen : (next ++ [stem ++ [APair.mk vn o]]).length = next.length + 1 := by simp
    rcases le_or_lt m (next.length + 1) with hc | hc
    · rw [if_pos (by simp [jge_num_num, hlen]; omega)]
      rw [hlen]
      simp only [List.length_cons]
      omega
    · rw [if_neg (by simp [jge_num_num, hlen]; omega)]
      rw [pushOpts_length_num m vn stem os _ (by rw [hlen]; omega)]
      rw [hlen]
      simp only [List.length_cons]
      omega

theorem extendAll_length_num (m : Nat) (vn : String) (opts : List Opt) :
    ∀ (acc next : List Assn), next.length < m →
      (extendAll (.num (m : Int)) vn opts acc next).length =
        min (next.length + acc.length * opts.length) m
  | [], next, h => by
    simp only [extendAll, List.length_nil, Nat.zero_mul, Nat.add_zero]
    omega
  | p :: ps, next, h => by
    rw [extendAll]
    have hlen := pushOpts_length_num m vn p opts next h
    have hmul : (ps.length + 1) * opts.length = ps.length * opts.length + opts.length :=
      Nat.succ_mul _ _
    rcases le_or_lt m (pushOpts (.num (m : Int)) vn p opts next).length with hc | hc
    · rw [if_pos (by simp [jge_num_num]; omega)]
      simp only [List.length_cons] at *
      omega
    · rw [if_neg (by simp [jge_num_num]; omega)]
      rw [extendAll_length_num m vn opts ps _ hc]
      simp only [List.length_cons]
      omega

/-- Product of the option-list sizes of a dimension list. -/
theorem prodOpts_nil : prodOpts [] = 1 := rfl

theorem prodOpts_cons (v : Variation) (vs : List Variation) :
    prodOpts (v :: vs) = v.options.length * prodOpts vs := by
  simp [prodOpts]

theorem prodOpts_pos (vs : List Variation) (h : ∀ v ∈ vs, v.options ≠ []) :
    0 < prodOpts vs := by
  induction vs with
  | nil => simp [prodOpts]
  | cons v vs ih =>
    rw [prodOpts_cons]
    have h1 : v.options ≠ [] := h v (by simp)
    have h2 : 0 < v.options.length := List.length_pos.mpr h1
    exact Nat.mul_pos h2 (ih (fun x hx => h x (by simp [hx])))

theorem buildLoop_length_num (m : Nat) (hm : 1 ≤ m) :
    ∀ (vs : List Variation) (acc : List Assn),
      (∀ v ∈ vs, v.options ≠ []) → 0 < acc.length → acc.length ≤ m →
      (buildLoop (.num (m : Int)) vs acc).length = min (acc.length * prodOpts vs) m
  | [], acc, _, hpos, hle => by
    simp only [buildLoop, prodOpts_nil, Nat.mul_one]
    omega
  | v :: vs, acc, hne, hpos, hle => by
    rw [buildLoop]
    have hext := extendAll_length_num m v.name v.options acc []
      (by simp only [List.length_nil]; omega)
    simp only [List.length_nil, Nat.zero_add] at hext
    have hvne : v.options ≠ [] := hne v (by simp)
    have hvpos : 0 < v.options.length := List.length_pos.mpr hvne
    rcases le_or_lt m (extendAll (.num (m : Int)) v.name v.options acc []).length with hc | hc
    · rw [if_pos (by simp [jge_num_num]; omega)]
      have hprod : 0 < prodOpts vs := prodOpts_pos vs (fun x hx => hne x (by simp [hx]))
      rw [prodOpts_cons]
      have : m ≤ acc.length * v.options.length := by omega
      have : m ≤ acc.length * (v.options.length * prodOpts vs) := by
        calc m ≤ acc.length * v.options.length := this
        _ ≤ acc.length * (v.options.length * prodOpts vs) := by
              exact Nat.mul_le_mul_left _ (Nat.le_mul_of_pos_right _ hprod)
      omega
    · rw [if_neg (by simp [jge_num_num]; omega)]
      have hlen : (extendAll (.num (m : Int)) v.name v.options acc []).length =
          acc.length * v.options.length := by omega
      rw [buildLoop_length_num m hm vs _ (fun x hx => hne x (by simp [hx]))
        (by rw [hlen]; exact Nat.mul_pos hpos hvpos) (by omega)]
      rw [hlen, prodOpts_cons, Nat.mul_assoc]

theorem buildOtherCombos_length_num (m : Nat) (hm : 1 ≤ m) (vs : List Variation)
    (hne : ∀ v ∈ vs, v.options ≠ []) :
    (buildOtherCombos (.num (m : Int)) vs).length = min (prodOpts vs) m := by
  cases vs with
  | nil => simp [buildOtherCombos, prodOpts_nil]; omega
  | cons v vs =>
    rw [buildOtherCombos, if_neg (by simp)]
    have := buildLoop_length_num m hm (v :: vs) [[]] hne (by simp) (by simpa using hm)
    simpa using this

theorem pushOpts_length_nan (vn : String) (stem : Assn) :
    ∀ (opts : List Opt) (next : List Assn),
      (pushOpts .nan vn stem opts next).length = next.length + opts.length
  | [], next => by simp [pushOpts]
  | o :: os, next => by
    rw [pushOpts, if_neg (by simp [jge_nan_right])]
    rw [pushOpts_length_nan vn stem os]
    simp only [List.length_append, List.length_cons, List.length_nil]
    omega

theorem extendAll_length_nan (vn : String) (opts : List Opt) :
    ∀ (acc next : List Assn),
      (extendAll .nan vn opts acc next).length = next.length + acc.length * opts.length
  | [], next => by simp [extendAll]
  | p :: ps, next => by
    rw [extendAll, if_neg (by simp [jge_nan_right])]
    rw [extendAll_length_nan vn opts ps, pushOpts_length_nan]
    simp only [List.length_cons]
    have : (ps.length + 1) * opts.length = ps.length * opts.length + opts.length :=
      Nat.succ_mul _ _
    omega

theorem buildLoop_length_nan :
    ∀ (vs : List Variation) (acc : List Assn),
      (buildLoop .nan vs acc).length = acc.length * prodOpts vs
  | [], acc => by simp [buildLoop, prodOpts_nil]
  | v :: vs, acc => by
    rw [buildLoop, if_neg (by simp [jge_nan_right])]
    rw [buildLoop_length_nan vs, extendAll_length_nan]
    simp only [List.length_nil, Nat.zero_add, prodOpts_cons]
    ring

theorem buildOtherCombos_length_nan (vs : List Variation) :
    (buildOtherCombos .nan vs).length = prodOpts vs := by
  cases vs with
  | nil => simp [buildOtherCombos, prodOpts_nil]
  | cons v vs =>
    rw [buildOtherCombos, if_neg (by simp)]
    rw [buildLoop_length_nan]
    simp

/-! ## Lemmas about the scrape iteration -/

theorem runInner_length_le (env : Env) (m : Nat) (dl : JNum) (fb tLab : String) :
    ∀ (L : List Assn) (st : SState), st.combos.length < m →
      (runInner env (.num (m : Int)) dl fb tLab L st).combos.length ≤ m
  | [], st, h => by simpa [runInner] using Nat.le_of_lt h
  | parts :: rest, st, h => by
    simp only [runInner]
    split
    · exact Nat.le_of_lt h
    · split
      · next hcap =>
        simp only [jge_num_num, decide_eq_true_eq, List.length_append, List.length_cons,
          List.length_nil] at hcap ⊢
        omega
      · next hcap =>
        simp only [jge_num_num, decide_eq_true_eq, List.length_append, List.length_cons,
          List.length_nil] at hcap
        refine runInner_length_le env m dl fb tLab rest _ ?_
        simp only [List.length_append, List.length_cons, List.length_nil]
        omega

theorem runTalles_length_le (env : Env) (m : Nat) (dl : JNum) (fb tn : String)
    (ov : List Variation) (oc : List Assn) :
    ∀ (ts : List Opt) (st : SState), st.combos.length < m →
      (runTalles env (.num (m : Int)) dl fb tn ov oc ts st).combos.length ≤ m
  | [], st, h => by simpa [runTalles] using Nat.le_of_lt h
  | t :: ts, st, h => by
    simp only [runTalles]
    split
    · exact Nat.le_of_lt h
    · split
      · split
        · next hcap =>
          simp only [jge_num_num, decide_eq_true_eq, List.length_append, List.length_cons,
            List.length_nil] at hcap ⊢
          omega
        · next hcap =>
          simp only [jge_num_num, decide_eq_true_eq, List.length_append, List.length_cons,
            List.length_nil] at hcap
          refine runTalles_length_le env m dl fb tn ov oc ts _ ?_
          simp only [List.length_append, List.length_cons, List.length_nil]
          omega
      · split
        · next hcap =>
          exact runInner_length_le env m dl fb (jsOr t.label t.value) oc _ h
        · next hcap =>
          simp only [jge_num_num, decide_eq_true_eq] at hcap
          refine runTalles_length_le env m dl fb tn ov oc ts _ ?_
          omega

theorem runInner_ai (env : Env) (mc dl : JNum) (fb tLab : String) :
    ∀ (L : List Assn) (st : SState), st.ai = st.combos.length →
      (runInner env mc dl fb tLab L st).ai = (runInner env mc dl fb tLab L st).combos.length
  | [], st, h => by simpa [runInner] using h
  | parts :: rest, st, h => by
    simp only [runInner]
    split
    · exact h
    · split
      · simp only [List.length_append, List.length_cons, List.length_nil]
        omega
      · refine runInner_ai env mc dl fb tLab rest _ ?_
        simp only [List.length_append, List.length_cons, List.length_nil]
        omega

theorem runTalles_ai (env : Env) (mc dl : JNum) (fb tn : String)
    (ov : List Variation) (oc : List Assn) :
    ∀ (ts : List Opt) (st : SState), st.ai = st.combos.length →
      (runTalles env mc dl fb tn ov oc ts st).ai =
        (runTalles env mc dl fb tn ov oc ts st).combos.length
  | [], st, h => by simpa [runTalles] using h
  | t :: ts, st, h => by
    simp only [runTalles]
    split
    · exact h
    · split
      · split
        · simp only [List.length_append, List.length_cons, List.length_nil]
          omega
        · refine runTalles_ai env mc dl fb tn ov oc ts _ ?_
          simp only [List.length_append, List.length_cons, List.length_nil]
          omega
      · split
        · exact runInner_ai env mc dl fb (jsOr t.label t.value) oc _ h
        · refine runTalles_ai env mc dl fb tn ov oc ts _ ?_
          exact runInner_ai env mc dl fb (jsOr t.label t.value) oc _ h

theorem runInner_mem (env : Env) (mc dl : JNum) (fb tLab : String) :
    ∀ (L : List Assn) (st : SState) (c : Combo),
      c ∈ (runInner env mc dl fb tLab L st).combos →
      c ∈ st.combos ∨ ∃ i, c.available = availOfRead (readAvailable (env.avails i))
  | [], st, c, h => by simp only [runInner] at h; exact Or.inl h
  | parts :: rest, st, c, h => by
    simp only [runInner] at h
    split at h
    · exact Or.inl h
    · split at h
      · rcases List.mem_append.mp h with h1 | h1
        · exact Or.inl h1
        · simp only [List.mem_singleton] at h1
          subst h1
          exact Or.inr ⟨st.ai, rfl⟩
      · rcases runInner_mem env mc dl fb tLab rest _ c h with h1 | h1
        · rcases List.mem_append.mp h1 with h2 | h2
          · exact Or.inl h2
          · simp only [List.mem_singleton] at h2
            subst h2
            exact Or.inr ⟨st.ai, rfl⟩
        · exact Or.inr h1

theorem runTalles_mem (env : Env) (mc dl : JNum) (fb tn : String)
    (ov : List Variation) (oc : List Assn) :
    ∀ (ts : List Opt) (st : SState) (c : Combo),
      c ∈ (runTalles env mc dl fb tn ov oc ts st).combos →
      c ∈ st.combos ∨ ∃ i, c.available = availOfRead (readAvailable (env.avails i))
  | [], st, c, h => by simp only [runTalles] at h; exact Or.inl h
  | t :: ts, st, c, h => by
    simp only [runTalles] at h
    split at h
    · exact Or.inl h
    · split at h
      · split at h
        · rcases List.mem_append.mp h with h1 | h1
          · exact Or.inl h1
          · simp only [List.mem_singleton] at h1
            subst h1
            exact Or.inr ⟨st.ai, rfl⟩
        · rcases runTalles_mem env mc dl fb tn ov oc ts _ c h with h1 | h1
          · rcases List.mem_append.mp h1 with h2 | h2
            · exact Or.inl h2
            · simp only [List.mem_singleton] at h2
              subst h2
              exact Or.inr ⟨st.ai, rfl⟩
          · exact Or.inr h1
      · split at h
        · rcases runInner_mem env mc dl fb (jsOr t.label t.value) oc _ c h with h1 | h1
          · exact Or.inl h1
          · exact Or.inr h1
        · rcases runTalles_mem env mc dl fb tn ov oc ts _ c h with h1 | h1
          · rcases runInner_mem env mc dl fb (jsOr t.label t.value) oc _ c h1 with h2 | h2
            · exact Or.inl h2
            · exact Or.inr h2
          · exact Or.inr h1

theorem runInner_length_nan (env : Env) (fb tLab : String) :
    ∀ (L : List Assn) (st : SState),
      (runInner env .nan .nan fb tLab L st).combos.length = st.combos.length + L.length
  | [], st => by simp [runInner]
  | parts :: rest, st => by
    simp only [runInner, jgt_nan_right, jge_nan_right, Bool.false_eq_true, if_false]
    rw [runInner_length_nan env fb tLab rest]
    simp only [List.length_append, List.length_cons, List.length_nil]
    omega

theorem runTalles_length_nan (env : Env) (fb tn : String)
    (ov : List Variation) (oc : List Assn) (hov : ov.isEmpty = true → oc.length = 1) :
    ∀ (ts : List Opt) (st : SState),
      (runTalles env .nan .nan fb tn ov oc ts st).combos.length =
        st.combos.length + ts.length * oc.length
  | [], st => by simp [runTalles]
  | t :: ts, st => by
    simp only [runTalles, jgt_nan_right, jge_nan_right, Bool.false_eq_true, if_false]
    split
    · next hempty =>
      rw [runTalles_length_nan env fb tn ov oc hov ts]
      simp only [List.length_append, List.length_cons, List.length_nil]
      have h1 : oc.length = 1 := hov hempty
      rw [h1]
      omega
    · rw [runTalles_length_nan env fb tn ov oc hov ts]
      rw [runInner_length_nan]
      simp only [List.length_cons]
      have : (ts.length + 1) * oc.length = ts.length * oc.length + oc.length :=
        Nat.succ_mul _ _
      omega

/-! ## Unfolding the two paths of `scrapeGo` -/

theorem filterVars_nil : filterVars [] = [] := rfl

theorem scrapeGo_main (env : Env) (p : Params) (v0 : Variation) (vrest : List Variation)
    (hfv : filterVars env.variations = v0 :: vrest) :
    scrapeGo env p = mainResult env p v0 vrest := by
  have hne : env.variations ≠ [] := by
    intro h
    rw [h, filterVars_nil] at hfv
    exact List.noConfusion hfv
  rw [scrapeGo, if_neg (by simpa using hne), hfv]
  rfl

theorem scrapeGo_empty (env : Env) (p : Params)
    (hfv : filterVars env.variations = []) :
    scrapeGo env p = emptyVarsResult env p (env.times 0)
      (jsOr (colorFromTitleSmart env.pageTitle) (colorFromUrlSmart p.product_url)) := by
  rw [scrapeGo]
  by_cases h : env.variations.isEmpty
  · rw [if_pos h]
  · rw [if_neg h, hfv]

/-! ## Lemmas about the worker loop -/

theorem isRestartEv_startOf {x : Ev} (h : isRestartEv x = true) : startOf x = none := by
  cases x <;> simp_all [isRestartEv, startOf]

theorem isRestartEv_doneOf {x : Ev} (h : isRestartEv x = true) : doneOf x = none := by
  cases x <;> simp_all [isRestartEv, doneOf]

theorem filterMap_restarts_startOf (pre : List Ev) (h : ∀ x ∈ pre, isRestartEv x = true) :
    pre.filterMap startOf = [] := by
  induction pre with
  | nil => rfl
  | cons a l ih =>
    rw [List.filterMap_cons, isRestartEv_startOf (h a (by simp))]
    exact ih fun x hx => h x (by simp [hx])

theorem filterMap_restarts_doneOf (pre : List Ev) (h : ∀ x ∈ pre, isRestartEv x = true) :
    pre.filterMap doneOf = [] := by
  induction pre with
  | nil => rfl
  | cons a l ih =>
    rw [List.filterMap_cons, isRestartEv_doneOf (h a (by simp))]
    exact ih fun x hx => h x (by simp [hx])

/-- Shape of the trace of one worker iteration: restarts, the dequeue
(`start`), restarts, then the resolution/rejection of exactly this job. -/
theorem stepJob_trace (K id : Nat) (o : Outcome) (s : SysSt) :
    ∃ pre mid, (∀ x ∈ pre, isRestartEv x = true) ∧ (∀ x ∈ mid, isRestartEv x = true) ∧
      (stepJob K id o s).2 = pre ++ Ev.start id :: (mid ++ [Ev.jobDone id (resOf o)]) := by
  cases o with
  | success =>
    by_cases hp : (s.browserUp && decide (0 < s.jobsDone) && decide (s.jobsDone % K = 0)) = true
    · exact ⟨[Ev.restart "preventive_restart"], [], by simp [isRestartEv], by simp,
        by simp [stepJob, hp, resOf]⟩
    · exact ⟨[], [], by simp, by simp, by simp [stepJob, hp, resOf]⟩
  | failure msg =>
    by_cases hf : isFatalPlaywrightError msg = true
    · by_cases hp : (s.browserUp && decide (0 < s.jobsDone) && decide (s.jobsDone % K = 0)) = true
      · exact ⟨[Ev.restart "preventive_restart"], [Ev.restart msg], by simp [isRestartEv],
          by simp [isRestartEv], by simp [stepJob, hp, hf, resOf]⟩
      · exact ⟨[], [Ev.restart msg], by simp, by simp [isRestartEv],
          by simp [stepJob, hp, hf, resOf]⟩
    · by_cases hp : (s.browserUp && decide (0 < s.jobsDone) && decide (s.jobsDone % K = 0)) = true
      · exact ⟨[Ev.restart "preventive_restart"], [], by simp [isRestartEv], by simp,
          by simp [stepJob, hp, hf, resOf]⟩
      · exact ⟨[], [], by simp, by simp, by simp [stepJob, hp, hf, resOf]⟩

theorem drainList_starts (K : Nat) (oc : Nat → Outcome) :
    ∀ (jobs : List Nat) (s : SysSt), (drainList K oc jobs s).2.filterMap startOf = jobs
  | [], _ => rfl
  | j :: rest, s => by
    obtain ⟨pre, mid, hpre, hmid, htr⟩ := stepJob_trace K j (oc j) s
    simp only [drainList]
    rw [List.filterMap_append, htr, List.filterMap_append,
      filterMap_restarts_startOf pre hpre, List.filterMap_cons]
    simp only [startOf, List.filterMap_append, filterMap_restarts_startOf mid hmid]
    rw [drainList_starts K oc rest]
    rfl

theorem drainList_dones (K : Nat) (oc : Nat → Outcome) :
    ∀ (jobs : List Nat) (s : SysSt),
      (drainList K oc jobs s).2.filterMap doneOf = jobs.map (fun j => (j, resOf (oc j)))
  | [], _ => rfl
  | j :: rest, s => by
    obtain ⟨pre, mid, hpre, hmid, htr⟩ := stepJob_trace K j (oc j) s
    simp only [drainList]
    rw [List.filterMap_append, htr, List.filterMap_append,
      filterMap_restarts_doneOf pre hpre, List.filterMap_cons]
    simp only [doneOf, List.filterMap_append, filterMap_restarts_doneOf mid hmid]
    rw [drainList_dones K oc rest]
    rfl

theorem drainList_serial (K : Nat) (oc : Nat → Outcome) :
    ∀ (jobs : List Nat) (s : SysSt), JobSerial (drainList K oc jobs s).2
  | [], _ => JobSerial.nil
  | j :: rest, s => by
    obtain ⟨pre, mid, hpre, hmid, htr⟩ := stepJob_trace K j (oc j) s
    simp only [drainList]
    rw [htr]
    have hshape :
        (pre ++ Ev.start j :: (mid ++ [Ev.jobDone j (resOf (oc j))])) ++
            (drainList K oc rest (stepJob K j (oc j) s).1).2 =
          pre ++ Ev.start j ::
            (mid ++ Ev.jobDone j (resOf (oc j)) :: (drainList K oc rest (stepJob K j (oc j) s).1).2) := by
      simp
    rw [hshape]
    exact JobSerial.job j (resOf (oc j)) pre mid _ hpre hmid (drainList_serial K oc rest _)

/-! ## Claims -/

/-- C5: for an ordered list of secondary dimensions with non-empty option
lists and an integer `max_combos = m ≥ 1`, `buildOtherCombos` returns exactly
`min (full Cartesian product size) m` assignments — so its length never
exceeds `m` and extension halts exactly when the running total reaches `m` —
and for zero secondary dimensions it returns exactly one empty assignment. -/
theorem claim_C5_build_bounded (m : Nat) (vars : List Variation) (hm : 1 ≤ m)
    (hne : ∀ v ∈ vars, v.options ≠ []) :
    (buildOtherCombos (.num (m : Int)) vars).length = min (prodOpts vars) m
    ∧ (buildOtherCombos (.num (m : Int)) vars).length ≤ m
    ∧ buildOtherCombos (.num (m : Int)) ([] : List Variation) = [[]] := by
  refine ⟨buildOtherCombos_length_num m hm vars hne, ?_, by simp [buildOtherCombos]⟩
  rw [buildOtherCombos_length_num m hm vars hne]
  omega

theorem claim_C5_build_bounded_witness :
    (buildOtherCombos (.num ((3 : Nat) : Int)) varsW5).length = min (prodOpts varsW5) 3
    ∧ (buildOtherCombos (.num ((3 : Nat) : Int)) varsW5).length ≤ 3
    ∧ buildOtherCombos (.num ((3 : Nat) : Int)) ([] : List Variation) = [[]] :=
  claim_C5_build_bounded 3 varsW5 (by decide) (by decide)

/-- C7: for dimension A with labels S, M, L, XL and dimension B with labels
Rojo, Azul, the classifier selects A as the primary (size) dimension, and
classification of the same discovered dimensions is deterministic. -/
theorem claim_C7_classifier_example :
    (pickTalle dimA [dimA, dimB]).2 = dimA
    ∧ pickTalle dimA [dimA, dimB] = pickTalle dimA [dimA, dimB] :=
  ⟨by decide, rfl⟩

/-- C8: the URL-slug fallback maps `art-4315-malbec` to `malbec` and
`art-4315-lila-rosa-bpofg` to `lila rosa`; `bpofg` is an opaque code token
(4-6 alphanumerics, fewer than two vowels) while `malbec` is not. -/
theorem claim_C8_slug_fallback :
    colorFromUrlSmart "https://tienda.example.com/productos/art-4315-malbec/" = "malbec"
    ∧ colorFromUrlSmart "https://tienda.example.com/productos/art-4315-lila-rosa-bpofg/" =
        "lila rosa"
    ∧ looksLikeCodeToken "bpofg" = true
    ∧ looksLikeCodeToken "malbec" = false := by
  refine ⟨by decide, by decide, by decide, by decide⟩

/-- C2 (counterexample): with capacity 1 and one job in flight (already
shifted off the queue), the pending+in-flight count has reached capacity,
yet `enqueue` accepts the submission — the code's check counts only pending
jobs, so the claim's "pending plus in-flight" predicate is false here. -/
theorem claim_C2_counterexample :
    enqueue 1 { pendingIds := [], inFlight := some 7 } 9 =
      .ok { pendingIds := [9], inFlight := some 7 }
    ∧ 1 ≤ (QueueView.mk [] (some 7)).pendingIds.length +
        inFlightCount (QueueView.mk [] (some 7)) := by
  refine ⟨rfl, by decide⟩

/-- C2 (amended): `enqueue` fails immediately with a `queue_full` error
carrying status 429 and `retry_after_ms` 30000 exactly when the number of
pending jobs (the in-flight job is not counted) has reached `MAX_QUEUE`;
otherwise it accepts without blocking, appending at the tail, and a rejection
leaves the queue contents unchanged (the throw precedes the push). -/
theorem claim_C2_enqueue_capacity (maxQueue : Nat) (st : QueueView) (id : Nat) :
    (maxQueue ≤ st.pendingIds.length →
      enqueue maxQueue st id = .error { status := 429, retry_after_ms := 30000 })
    ∧ (st.pendingIds.length < maxQueue →
      enqueue maxQueue st id = .ok { st with pendingIds := st.pendingIds ++ [id] }) := by
  constructor
  · intro h
    rw [enqueue, if_pos h]
  · intro h
    rw [enqueue, if_neg (by omega)]

theorem claim_C2_enqueue_capacity_witness :
    enqueue 2 { pendingIds := [4, 5], inFlight := none } 6 =
      .error { status := 429, retry_after_ms := 30000 }
    ∧ enqueue 2 { pendingIds := [4], inFlight := none } 6 =
      .ok { pendingIds := [4, 6], inFlight := none } :=
  ⟨(claim_C2_enqueue_capacity 2 { pendingIds := [4, 5], inFlight := none } 6).1 (by decide),
   (claim_C2_enqueue_capacity 2 { pendingIds := [4], inFlight := none } 6).2 (by decide)⟩

/-- C3: the single drain worker dequeues accepted jobs strictly in arrival
order (the `start` events of the trace are exactly the queue in order), every
dequeued job runs to completion before the next is dequeued (the trace is
job-serial), a throwing job only rejects its own promise with the error while
later jobs are still processed (the `done` events pair every job with its own
outcome), and invoking `runWorker` while a worker is already running is a
no-op, so at most one worker loop is active at a time. -/
theorem claim_C3_fifo_worker (K : Nat) (oc : Nat → Outcome) (jobs : List Nat)
    (s : SysSt) (st : WSt) :
    (drainList K oc jobs s).2.filterMap startOf = jobs
    ∧ (drainList K oc jobs s).2.filterMap doneOf = jobs.map (fun j => (j, resOf (oc j)))
    ∧ JobSerial (drainList K oc jobs s).2
    ∧ (st.workerRunning = true → runWorkerModel K oc st = (st, [])) := by
  refine ⟨drainList_starts K oc jobs s, drainList_dones K oc jobs s,
    drainList_serial K oc jobs s, ?_⟩
  intro h
  rw [runWorkerModel, if_pos h]

theorem claim_C3_fifo_worker_witness :
    (drainList 80 oc0 [1, 2, 3] ⟨0, false⟩).2.filterMap startOf = [1, 2, 3]
    ∧ (drainList 80 oc0 [1, 2, 3] ⟨0, false⟩).2.filterMap doneOf =
        [(1, none), (2, some "boom"), (3, none)]
    ∧ runWorkerModel 80 oc0 ⟨[9], true, ⟨0, false⟩⟩ = (⟨[9], true, ⟨0, false⟩⟩, []) := by
  have h := claim_C3_fifo_worker 80 oc0 [1, 2, 3] ⟨0, false⟩ ⟨[9], true, ⟨0, false⟩⟩
  refine ⟨h.1, ?_, h.2.2.2 rfl⟩
  rw [h.2.1]
  rfl

/-- C4: when `jobsDone` has reached a positive multiple of `K`
(`RESTART_EVERY_JOBS`) and the browser is up, the next worker iteration
performs exactly one preventive restart before the job starts driving
(whatever the job's outcome); and a job failing with a fatal-signature
message performs exactly one restart, placed between its start and the
rejection that surfaces the error to the caller. -/
theorem claim_C4_restart_policy (K id : Nat) (s : SysSt) (msg : String) :
    (s.browserUp = true → 0 < s.jobsDone → s.jobsDone % K = 0 →
      ∀ o : Outcome, ∃ tr,
        (stepJob K id o s).2 = Ev.restart "preventive_restart" :: Ev.start id :: tr)
    ∧ (isFatalPlaywrightError msg = true →
      ∃ pre, (∀ x ∈ pre, isRestartEv x = true) ∧
        (stepJob K id (.failure msg) s).2 =
          pre ++ [Ev.start id, Ev.restart msg, Ev.jobDone id (some msg)]) := by
  constructor
  · intro hb hj hk o
    have hp : (s.browserUp && decide (0 < s.jobsDone) && decide (s.jobsDone % K = 0)) = true := by
      simp [hb, hj, hk]
    cases o with
    | success => exact ⟨[Ev.jobDone id none], by simp [stepJob, hp]⟩
    | failure m =>
      by_cases hf : isFatalPlaywrightError m = true
      · exact ⟨[Ev.restart m, Ev.jobDone id (some m)], by simp [stepJob, hp, hf]⟩
      · exact ⟨[Ev.jobDone id (some m)], by simp [stepJob, hp, hf]⟩
  · intro hf
    by_cases hp : (s.browserUp && decide (0 < s.jobsDone) && decide (s.jobsDone % K = 0)) = true
    · exact ⟨[Ev.restart "preventive_restart"], by simp [isRestartEv],
        by simp [stepJob, hp, hf]⟩
    · exact ⟨[], by simp, by simp [stepJob, hp, hf]⟩

theorem claim_C4_restart_policy_witness :
    (∃ tr, (stepJob 80 5 Outcome.success ⟨80, true⟩).2 =
        Ev.restart "preventive_restart" :: Ev.start 5 :: tr)
    ∧ (∃ pre, (∀ x ∈ pre, isRestartEv x = true) ∧
        (stepJob 80 5 (Outcome.failure "Target closed") ⟨0, true⟩).2 =
          pre ++ [Ev.start 5, Ev.restart "Target closed",
            Ev.jobDone 5 (some "Target closed")]) :=
  ⟨(claim_C4_restart_policy 80 5 ⟨80, true⟩ "x").1 rfl (by decide) (by decide) Outcome.success,
   (claim_C4_restart_policy 80 5 ⟨0, true⟩ "Target closed").2 (by decide)⟩

/-- C6: a job whose discovery yields zero dimensions, or whose every
discovered dimension is dropped after filtering, short-circuits to exactly
one synthetic `ComboResult` for the unmodified page (no option applied and
exactly one availability read, at index 0), with `combosCount = 1`,
`tallesCount = 0`, `coloresCount = 0`, `limited = false` and the
fallback-derived secondary label. -/
theorem claim_C6_zero_dims (env : Env) (p : Params)
    (hfv : filterVars env.variations = []) :
    (scrape env p).combos =
      [{ talle := "(sin talle)",
         color := jsOr (jsOr (colorFromTitleSmart env.pageTitle)
           (colorFromUrlSmart p.product_url)) "(sin color)",
         available := availOfRead (readAvailable (env.avails 0)) }]
    ∧ (scrape env p).combosCount = 1
    ∧ (scrape env p).tallesCount = 0
    ∧ (scrape env p).coloresCount = 0
    ∧ (scrape env p).limited = false
    ∧ (scrapeGo env p).2.evs = [PEv.read 0]
    ∧ (scrapeGo env p).2.ai = 1 := by
  simp [scrape, scrapeGo_empty env p hfv, emptyVarsResult]

theorem claim_C6_zero_dims_witness :
    (scrape envW6 pW6).combos =
      [{ talle := "(sin talle)",
         color := jsOr (jsOr (colorFromTitleSmart envW6.pageTitle)
           (colorFromUrlSmart pW6.product_url)) "(sin color)",
         available := availOfRead (readAvailable (envW6.avails 0)) }]
    ∧ (scrape envW6 pW6).combosCount = 1
    ∧ (scrape envW6 pW6).tallesCount = 0
    ∧ (scrape envW6 pW6).coloresCount = 0
    ∧ (scrape envW6 pW6).limited = false
    ∧ (scrapeGo envW6 pW6).2.evs = [PEv.read 0]
    ∧ (scrapeGo envW6 pW6).2.ai = 1 :=
  claim_C6_zero_dims envW6 pW6 (by decide)

/-- C9: the `available === true` coercion reports an absent buy button as
`false` (never unknown or available); for a present button, availability is
false exactly when it is disabled, carries a "nostock" class, or its
text/value contains an out-of-stock phrase; and every combo a job emits takes
its `available` flag from one of the environment's availability reads, so an
absent button on that read yields `available = false`. -/
theorem claim_C9_availability (env : Env) (p : Params) (c : Combo) :
    availOfRead (readAvailable none) = false
    ∧ (∀ b : Btn, availOfRead (readAvailable (some b)) =
        !(b.disabled || jsIncludes (jsToLower b.className) "nostock"
          || jsIncludes (jsToLower b.text) "sin stock"
          || jsIncludes (jsToLower b.text) "agotado"))
    ∧ (c ∈ (scrape env p).combos →
        ∃ i, c.available = availOfRead (readAvailable (env.avails i))
          ∧ (env.avails i = none → c.available = false)) := by
  refine ⟨rfl, ?_, ?_⟩
  · intro b
    simp [availOfRead, readAvailable]
  · intro hmem
    cases hfv : filterVars env.variations with
    | nil =>
      simp only [scrape, scrapeGo_empty env p hfv, emptyVarsResult,
        List.mem_singleton] at hmem
      refine ⟨0, by rw [hmem], ?_⟩
      intro hn
      rw [hmem, hn]
      rfl
    | cons v0 vrest =>
      simp only [scrape, scrapeGo_main env p v0 vrest hfv, mainResult] at hmem
      rcases runTalles_mem env p.max_combos _ _ _ _ _ _ _ c hmem with h1 | h1
      · simp at h1
      · obtain ⟨i, hi⟩ := h1
        refine ⟨i, hi, ?_⟩
        intro hn
        rw [hi, hn]
        rfl

theorem claim_C9_availability_witness :
    cW9 ∈ (scrape envW9 pW9).combos
    ∧ ∃ i, cW9.available = availOfRead (readAvailable (envW9.avails i))
        ∧ (envW9.avails i = none → cW9.available = false) :=
  ⟨by decide, (claim_C9_availability envW9 pW9 cW9).2.2 (by decide)⟩

/-- C1 (counterexample): a job with zero discovered dimensions and numeric
`max_combos = 1`, `max_ms = 1000` completes with `combosCount = 1 =
max_combos` but `limited = false` — the short-circuit path hard-codes
`limited: false`, so "limited whenever `combosCount == max_combos`" fails for
such jobs. -/
theorem claim_C1_counterexample :
    (scrape envC1 pC1).combosCount = 1
    ∧ pC1.max_combos = JNum.num 1
    ∧ pC1.max_ms = JNum.num 1000
    ∧ (scrape envC1 pC1).limited = false :=
  ⟨by decide, rfl, rfl, by decide⟩

/-- C1 (amended): for numeric `max_combos = m ≥ 1` and numeric `max_ms`,
every job satisfies `combosCount ≤ m`; and when at least one dimension
survives filtering (so the iteration loop runs), `limited = true` whenever
`combosCount = m`, `limited = true` whenever the end-of-iteration clock
reading exceeds `started + max_ms`, and every availability read produced a
combo (`ai = combosCount`), i.e. iteration stops as soon as the count reaches
`m` at any nesting level. -/
theorem claim_C1_budget (env : Env) (p : Params) (m ms : Int)
    (hm : p.max_combos = .num m) (h1 : 1 ≤ m) (hms : p.max_ms = .num ms) :
    ((scrape env p).combosCount : Int) ≤ m
    ∧ (filterVars env.variations ≠ [] →
        (((scrape env p).combosCount : Int) = m → (scrape env p).limited = true)
        ∧ (env.times 0 + ms < env.times (scrapeGo env p).2.ti → (scrape env p).limited = true)
        ∧ (scrapeGo env p).2.ai = (scrape env p).combosCount) := by
  have hM : ((m.toNat : Int)) = m := Int.toNat_of_nonneg (by omega)
  have hm' : p.max_combos = JNum.num ((m.toNat : Int)) := by rw [hm, hM]
  cases hfv : filterVars env.variations with
  | nil =>
    constructor
    · simp only [scrape, scrapeGo_empty env p hfv, emptyVarsResult]
      omega
    · intro h
      exact absurd rfl h
  | cons v0 vrest =>
    have hmain := scrapeGo_main env p v0 vrest hfv
    constructor
    · simp only [scrape, hmain, mainResult, hm']
      have hb := runTalles_length_le env m.toNat
        (jadd (.num (env.times 0)) p.max_ms)
        (jsOr (colorFromTitleSmart env.pageTitle) (colorFromUrlSmart p.product_url))
        (pickTalle v0 (v0 :: vrest)).2.name
        ((v0 :: vrest).filter (fun x => x.name != (pickTalle v0 (v0 :: vrest)).2.name))
        (buildOtherCombos (JNum.num ((m.toNat : Int)))
          ((v0 :: vrest).filter (fun x => x.name != (pickTalle v0 (v0 :: vrest)).2.name)))
        (pickTalle v0 (v0 :: vrest)).2.options
        { ti := 1, ai := 0, combos := [], evs := [] }
        (by simp only [List.length_nil]; omega)
      omega
    · intro _
      refine ⟨?_, ?_, ?_⟩
      · intro hcount
        simp only [scrape, hmain, mainResult] at hcount ⊢
        rw [hm] at hcount ⊢
        simp only [jge_num_num, Bool.or_eq_true, decide_eq_true_eq]
        left
        omega
      · intro htime
        simp only [scrape, hmain, mainResult] at htime ⊢
        rw [hms] at htime ⊢
        simp only [jadd] at htime ⊢
        simp only [jgt_num_num, Bool.or_eq_true, decide_eq_true_eq]
        right
        omega
      · simp only [scrape, hmain, mainResult]
        exact runTalles_ai env _ _ _ _ _ _ _ _ rfl

theorem claim_C1_budget_witness :
    ((scrape envW1 pW1).combosCount : Int) ≤ 5
    ∧ (((scrape envW1 pW1).combosCount : Int) = 5 → (scrape envW1 pW1).limited = true)
    ∧ (envW1.times 0 + 100 < envW1.times (scrapeGo envW1 pW1).2.ti →
        (scrape envW1 pW1).limited = true)
    ∧ (scrapeGo envW1 pW1).2.ai = (scrape envW1 pW1).combosCount := by
  have h := claim_C1_budget envW1 pW1 5 100 rfl (by decide) rfl
  exact ⟨h.1, (h.2 (by decide)).1, (h.2 (by decide)).2.1, (h.2 (by decide)).2.2⟩

theorem jadd_nan_right (a : JNum) : jadd a .nan = .nan := by cases a <;> rfl

/-- C10 (counterexample): a request whose `max_combos` field does not parse
(`Number` yields `NaN`) while `max_ms = 10` is numeric: the clock passes the
deadline, iteration is stopped by the time budget after zero combos (the
full product would have one), and the returned `limited` is `true` — so with
only one unparseable field the deadline comparisons are not all false and
`limited` is not false. -/
theorem claim_C10_counterexample :
    pC10.max_combos = JNum.nan
    ∧ (scrape envC10 pC10).limited = true
    ∧ (scrape envC10 pC10).combosCount = 0 :=
  ⟨rfl, by decide, by decide⟩

/-- C10 (amended): when both `max_combos` and `max_ms` fail to parse (both
are `NaN`) and at least one dimension survives filtering, every count-cap
comparison and every deadline comparison is false: the returned `limited` is
false, the combination builder produces the full Cartesian product of the
secondary dimensions, and the job iterates all of it — `combosCount` is the
primary option count times the full secondary product. -/
theorem claim_C10_nan_budget (env : Env) (p : Params) (v0 : Variation)
    (vrest : List Variation) (hmc : p.max_combos = .nan) (hms : p.max_ms = .nan)
    (hfv : filterVars env.variations = v0 :: vrest) :
    (scrape env p).limited = false
    ∧ (scrape env p).combosCount =
        (pickTalle v0 (v0 :: vrest)).2.options.length *
          prodOpts ((v0 :: vrest).filter
            (fun x => x.name != (pickTalle v0 (v0 :: vrest)).2.name))
    ∧ (buildOtherCombos JNum.nan ((v0 :: vrest).filter
          (fun x => x.name != (pickTalle v0 (v0 :: vrest)).2.name))).length =
        prodOpts ((v0 :: vrest).filter
          (fun x => x.name != (pickTalle v0 (v0 :: vrest)).2.name)) := by
  have hmain := scrapeGo_main env p v0 vrest hfv
  have hov : ((v0 :: vrest).filter
        (fun x => x.name != (pickTalle v0 (v0 :: vrest)).2.name)).isEmpty = true →
      (buildOtherCombos JNum.nan ((v0 :: vrest).filter
        (fun x => x.name != (pickTalle v0 (v0 :: vrest)).2.name))).length = 1 := by
    intro h
    rw [List.isEmpty_iff] at h
    rw [h]
    rfl
  refine ⟨?_, ?_, buildOtherCombos_length_nan _⟩
  · simp only [scrape, hmain, mainResult, hmc, hms, jadd_nan_right, jge_nan_right,
      jgt_nan_right, Bool.or_false]
  · simp only [scrape, hmain, mainResult, hmc, hms, jadd_nan_right]
    rw [runTalles_length_nan env _ _ _ _ hov _ _]
    rw [buildOtherCombos_length_nan]
    simp

theorem claim_C10_nan_budget_witness :
    (scrape envW10 pW10).limited = false
    ∧ (scrape envW10 pW10).combosCount =
        (pickTalle (Variation.mk "variation[0]" [⟨"s", "S", false⟩])
            [⟨"variation[0]", [⟨"s", "S", false⟩]⟩,
             ⟨"variation[1]", [⟨"r", "Rojo", false⟩, ⟨"a", "Azul", false⟩]⟩]).2.options.length *
          prodOpts (([⟨"variation[0]", [⟨"s", "S", false⟩]⟩,
             ⟨"variation[1]", [⟨"r", "Rojo", false⟩, ⟨"a", "Azul", false⟩]⟩] :
               List Variation).filter
            (fun x => x.name != (pickTalle (Variation.mk "variation[0]" [⟨"s", "S", false⟩])
              [⟨"variation[0]", [⟨"s", "S", false⟩]⟩,
               ⟨"variation[1]", [⟨"r", "Rojo", false⟩, ⟨"a", "Azul", false⟩]⟩]).2.name))
    ∧ (buildOtherCombos JNum.nan (([⟨"variation[0]", [⟨"s", "S", false⟩]⟩,
             ⟨"variation[1]", [⟨"r", "Rojo", false⟩, ⟨"a", "Azul", false⟩]⟩] :
               List Variation).filter
          (fun x => x.name != (pickTalle (Variation.mk "variation[0]" [⟨"s", "S", false⟩])
            [⟨"variation[0]", [⟨"s", "S", false⟩]⟩,
             ⟨"variation[1]", [⟨"r", "Rojo", false⟩, ⟨"a", "Azul", false⟩]⟩]).2.name))).length =
        prodOpts (([⟨"variation[0]", [⟨"s", "S", false⟩]⟩,
             ⟨"variation[1]", [⟨"r", "Rojo", false⟩, ⟨"a", "Azul", false⟩]⟩] :
               List Variation).filter
          (fun x => x.name != (pickTalle (Variation.mk "variation[0]" [⟨"s", "S", false⟩])
            [⟨"variation[0]", [⟨"s", "S", false⟩]⟩,
             ⟨"variation[1]", [⟨"r", "Rojo", false⟩, ⟨"a", "Azul", false⟩]⟩]).2.name)) :=
  claim_C10_nan_budget envW10 pW10
    (Variation.mk "variation[0]" [⟨"s", "S", false⟩])
    [⟨"variation[1]", [⟨"r", "Rojo", false⟩, ⟨"a", "Azul", false⟩]⟩]
    rfl rfl (by decide)

end StockBot
